import Mathlib

/-!
Verification of the xkcdfs virtual filesystem (danieldulaney/xkcdfs).

This development shallowly embeds the Rust sources:
  * `src/fs/file.rs`      — the inode address space (`File`, `inode`,
    `from_inode`, `from_filename`, `filename`, `filetype`, `child_by_index`);
  * `src/fs/mod.rs`       — the FUSE protocol handler (`read`'s
    `reply_from_slice` helper and `write`);
  * `src/requests/mod.rs` — the retrieval orchestrator (`RequestMode`,
    `request_comic`, `request_latest_comic`, `request_raw_image`,
    `request_rendered_image`);
  * `src/image.rs`        — the image compositor (`break_text`,
    `text_block_extents`, `jpeg_to_cairo`, `create_image_surface`, `render`).

Machine integers are modelled as `Nat` with explicit `% 4294967296`
(2^32) or `% 18446744073709551616` (2^64) at the points where the Rust
code performs truncating `as` casts or can wrap.  Strings are modelled
as `List Char`.  External collaborators (the SQLite cache, the HTTP
client, the cairo drawing library, the jpeg decoder and the unicode
line-breaking crate) are modelled as explicit oracle inputs, since their
code is not part of this repository.  A Rust `panic!` / `.unwrap()` /
`.expect` outcome is modelled with the `PanicOr` type below, so that
"crashes the process" and "returns an error value" are distinguishable.
-/

/-- Outcome of Rust code that can panic: either a normal value or a panic
(`panic!`, `.unwrap()` on `Err`/`None`, `.expect`). -/
inductive PanicOr (α : Type) : Type where
  | panicked : PanicOr α
  | ok (a : α) : PanicOr α
deriving DecidableEq

/-- The file-identity enum from `src/fs/file.rs` (`enum File`).  Comic
numbers are `u32` in Rust; they are carried here as `Nat`, with `< 2^32`
side conditions where relevant. -/
inductive File : Type where
  | Root : File
  | Refresh : File
  | Credits : File
  | Image (n : Nat) : File
  | MetaFolder (n : Nat) : File
  | AltText (n : Nat) : File
  | Title (n : Nat) : File
  | Transcript (n : Nat) : File
  | Date (n : Nat) : File
  | RawImage (n : Nat) : File
deriving DecidableEq

/-- `File::from_inode` (src/fs/file.rs:28-46).  The 64-bit inode is split
into `upper_bytes = (ino >> 32) as u32` and `lower_bytes = ino as u32`;
for `ino < 2^64` these are `ino / 2^32` and `ino % 2^32`.  The Rust
`match` on `(upper_bytes, lower_bytes)` tries its arms top to bottom,
which the nested conditionals below reproduce exactly. -/
def File.from_inode (ino : Nat) : Option File :=
  let upper_bytes : Nat := ino / 4294967296
  let lower_bytes : Nat := ino % 4294967296
  if upper_bytes = 0 then
    if lower_bytes = 1 then some .Root
    else if lower_bytes = 2 then some .Refresh
    else if lower_bytes = 3 then some .Credits
    else none
  else
    if lower_bytes = 0 then some (.Image upper_bytes)
    else if lower_bytes = 1 then some (.MetaFolder upper_bytes)
    else if lower_bytes = 2 then some (.AltText upper_bytes)
    else if lower_bytes = 3 then some (.Title upper_bytes)
    else if lower_bytes = 4 then some (.Transcript upper_bytes)
    else if lower_bytes = 5 then some (.Date upper_bytes)
    else if lower_bytes = 6 then some (.RawImage upper_bytes)
    else none

/-- `File::inode` (src/fs/file.rs:64-81): `from_halves(high, low) =
((high as u64) << 32) + low`, which for `high, low < 2^32` is exactly
`high * 2^32 + low` with no truncation. -/
def File.inode : File → Nat
  | .Root => 1
  | .Refresh => 2
  | .Credits => 3
  | .Image i => i * 4294967296
  | .MetaFolder i => i * 4294967296 + 1
  | .AltText i => i * 4294967296 + 2
  | .Title i => i * 4294967296 + 3
  | .Transcript i => i * 4294967296 + 4
  | .Date i => i * 4294967296 + 5
  | .RawImage i => i * 4294967296 + 6

/-- A file identity is *defined* when its comic number (if any) is a
non-zero `u32`, matching the doc comment on `File::inode` ("`n` is any
non-zero integer") and the `u32` field type. -/
def File.defined : File → Prop
  | .Root | .Refresh | .Credits => True
  | .Image n | .MetaFolder n | .AltText n | .Title n | .Transcript n
  | .Date n | .RawImage n => n ≠ 0 ∧ n < 4294967296

instance : DecidablePred File.defined := fun f =>
  match f with
  | .Root => isTrue trivial
  | .Refresh => isTrue trivial
  | .Credits => isTrue trivial
  | .Image n => inferInstanceAs (Decidable (n ≠ 0 ∧ n < 4294967296))
  | .MetaFolder n => inferInstanceAs (Decidable (n ≠ 0 ∧ n < 4294967296))
  | .AltText n => inferInstanceAs (Decidable (n ≠ 0 ∧ n < 4294967296))
  | .Title n => inferInstanceAs (Decidable (n ≠ 0 ∧ n < 4294967296))
  | .Transcript n => inferInstanceAs (Decidable (n ≠ 0 ∧ n < 4294967296))
  | .Date n => inferInstanceAs (Decidable (n ≠ 0 ∧ n < 4294967296))
  | .RawImage n => inferInstanceAs (Decidable (n ≠ 0 ∧ n < 4294967296))

lemma from_inode_inode_of_defined (f : File) (hf : f.defined) :
    File.from_inode f.inode = some f := by
  cases f with
  | Root => rfl
  | Refresh => rfl
  | Credits => rfl
  | Image n =>
      obtain ⟨h0, _⟩ := hf
      have h1 : n * 4294967296 / 4294967296 = n := by omega
      have h2 : n * 4294967296 % 4294967296 = 0 := by omega
      simp [File.inode, File.from_inode, h1, h2, h0]
  | MetaFolder n =>
      obtain ⟨h0, _⟩ := hf
      have h1 : (n * 4294967296 + 1) / 4294967296 = n := by omega
      have h2 : (n * 4294967296 + 1) % 4294967296 = 1 := by omega
      simp [File.inode, File.from_inode, h1, h2, h0]
  | AltText n =>
      obtain ⟨h0, _⟩ := hf
      have h1 : (n * 4294967296 + 2) / 4294967296 = n := by omega
      have h2 : (n * 4294967296 + 2) % 4294967296 = 2 := by omega
      simp [File.inode, File.from_inode, h1, h2, h0]
  | Title n =>
      obtain ⟨h0, _⟩ := hf
      have h1 : (n * 4294967296 + 3) / 4294967296 = n := by omega
      have h2 : (n * 4294967296 + 3) % 4294967296 = 3 := by omega
      simp [File.inode, File.from_inode, h1, h2, h0]
  | Transcript n =>
      obtain ⟨h0, _⟩ := hf
      have h1 : (n * 4294967296 + 4) / 4294967296 = n := by omega
      have h2 : (n * 4294967296 + 4) % 4294967296 = 4 := by omega
      simp [File.inode, File.from_inode, h1, h2, h0]
  | Date n =>
      obtain ⟨h0, _⟩ := hf
      have h1 : (n * 4294967296 + 5) / 4294967296 = n := by omega
      have h2 : (n * 4294967296 + 5) % 4294967296 = 5 := by omega
      simp [File.inode, File.from_inode, h1, h2, h0]
  | RawImage n =>
      obtain ⟨h0, _⟩ := hf
      have h1 : (n * 4294967296 + 6) / 4294967296 = n := by omega
      have h2 : (n * 4294967296 + 6) % 4294967296 = 6 := by omega
      simp [File.inode, File.from_inode, h1, h2, h0]

lemma inode_from_inode (i : Nat) (f : File) (h : File.from_inode i = some f) :
    f.inode = i := by
  simp only [File.from_inode] at h
  split_ifs at h <;>
    first
    | exact Option.noConfusion h
    | (rw [Option.some.injEq] at h; subst h; simp only [File.inode]; omega)

/-- C1.  The inode encoding is a bijection over defined identities:
decoding the encoding of any defined identity returns that identity; any
64-bit inode value either decodes to nothing or decodes to an identity
that encodes back to exactly that inode; hence no two distinct decodable
inodes reach identities sharing an encoding. -/
theorem claim_C1_inode_bijection :
    (∀ f : File, f.defined → File.from_inode f.inode = some f) ∧
    (∀ i : Nat, i < 18446744073709551616 →
      ∀ f : File, File.from_inode i = some f → f.inode = i) ∧
    (∀ i j : Nat, i < 18446744073709551616 → j < 18446744073709551616 →
      ∀ f : File, File.from_inode i = some f → File.from_inode j = some f →
        i = j) :=
  ⟨from_inode_inode_of_defined,
   fun i _ f h => inode_from_inode i f h,
   fun i j _ _ f h1 h2 => by
     rw [← inode_from_inode i f h1, ← inode_from_inode j f h2]⟩

theorem claim_C1_witness :
    File.from_inode (File.Image 7).inode = some (File.Image 7) ∧
    (∀ f : File, File.from_inode 3 = some f → f.inode = 3) :=
  ⟨claim_C1_inode_bijection.1 (File.Image 7) (by decide),
   claim_C1_inode_bijection.2.1 3 (by decide)⟩

/-! ### Decimal formatting and parsing

`File::filename` uses Rust's `format!("comic_{:04}.png", num)` /
`format!("info_{:04}", num)` (zero-padded decimal, minimum width 4), and
`File::from_filename` uses `str::parse::<u32>` (optional leading `+`,
one or more ASCII digits, value at most `u32::MAX`).  Both are modelled
here over `List Char`. -/

/-- The ASCII character for the decimal digit `d` (`d < 10`). -/
def digitChar (d : Nat) : Char := Char.ofNat (48 + d)

/-- Most-significant-first decimal digits of `n`, prepended to `acc`;
yields `[]` for `n = 0` (the `0` case is handled by `toDecimal`). -/
def toDecimalAux : Nat → List Char → List Char
  | 0, acc => acc
  | n + 1, acc => toDecimalAux ((n + 1) / 10) (digitChar ((n + 1) % 10) :: acc)
decreasing_by exact Nat.div_lt_self (Nat.succ_pos n) (by omega)

/-- Decimal rendering of `n`, as Rust `format!("{}", n)` produces. -/
def toDecimal (n : Nat) : List Char :=
  if n = 0 then [digitChar 0] else toDecimalAux n []

/-- Left-pad with `'0'` to width 4: the `{:04}` format specifier. -/
def decimal4 (n : Nat) : List Char :=
  List.replicate (4 - (toDecimal n).length) (digitChar 0) ++ toDecimal n

/-- Value of an ASCII digit character, `none` for non-digits. -/
def digitVal (c : Char) : Option Nat :=
  if 48 ≤ c.toNat ∧ c.toNat ≤ 57 then some (c.toNat - 48) else none

/-- Accumulating decimal parser over a character list; fails on the
first non-digit. -/
def parseDigitsAux (acc : Nat) : List Char → Option Nat
  | [] => some acc
  | c :: cs =>
    match digitVal c with
    | some d => parseDigitsAux (acc * 10 + d) cs
    | none => none

/-- `str::parse::<u32>`: an optional leading `+`, then one or more ASCII
digits, rejecting the empty digit string and values `≥ 2^32`. -/
def parseU32 (s : List Char) : Option Nat :=
  let s' : List Char :=
    match s with
    | c :: rest => if c = '+' then rest else s
    | [] => s
  match s' with
  | [] => none
  | _ :: _ =>
    match parseDigitsAux 0 s' with
    | some v => if v < 4294967296 then some v else none
    | none => none

/-- `10 ^ (number of decimal digits of n)`, by the same recursion as
`toDecimalAux` (with `tenPow 0 = 1`). -/
def tenPow : Nat → Nat
  | 0 => 1
  | n + 1 => 10 * tenPow ((n + 1) / 10)
decreasing_by exact Nat.div_lt_self (Nat.succ_pos n) (by omega)

lemma digitVal_digitChar : ∀ d : Nat, d < 10 → digitVal (digitChar d) = some d := by
  decide

lemma parseDigitsAux_toDecimalAux (n : Nat) :
    ∀ acc rest, parseDigitsAux acc (toDecimalAux n rest) =
      parseDigitsAux (acc * tenPow n + n) rest := by
  induction n using Nat.strong_induction_on with
  | _ n ih =>
    intro acc rest
    match n with
    | 0 => simp [toDecimalAux, tenPow]
    | m + 1 =>
      rw [toDecimalAux, ih ((m + 1) / 10) (Nat.div_lt_self (Nat.succ_pos m) (by omega))]
      show parseDigitsAux _ (digitChar ((m + 1) % 10) :: rest) = _
      rw [parseDigitsAux, digitVal_digitChar _ (Nat.mod_lt _ (by omega))]
      show parseDigitsAux
          ((acc * tenPow ((m + 1) / 10) + (m + 1) / 10) * 10 + (m + 1) % 10) rest = _
      have hexp : tenPow (m + 1) = 10 * tenPow ((m + 1) / 10) := by
        rw [tenPow]
      have hdm : 10 * ((m + 1) / 10) + (m + 1) % 10 = m + 1 := Nat.div_add_mod (m + 1) 10
      have harith : (acc * tenPow ((m + 1) / 10) + (m + 1) / 10) * 10 + (m + 1) % 10
          = acc * tenPow (m + 1) + (m + 1) := by
        rw [hexp]
        set t := tenPow ((m + 1) / 10) with ht
        calc (acc * t + (m + 1) / 10) * 10 + (m + 1) % 10
            = acc * (10 * t) + (10 * ((m + 1) / 10) + (m + 1) % 10) := by ring
          _ = acc * (10 * t) + (m + 1) := by rw [hdm]
      rw [harith]

lemma parseDigitsAux_toDecimal (n : Nat) :
    parseDigitsAux 0 (toDecimal n) = some n := by
  by_cases h : n = 0
  · subst h; rfl
  · rw [toDecimal, if_neg h, parseDigitsAux_toDecimalAux]
    simp [parseDigitsAux]

lemma parseDigitsAux_replicate_zero (k : Nat) (l : List Char) :
    parseDigitsAux 0 (List.replicate k (digitChar 0) ++ l) = parseDigitsAux 0 l := by
  induction k with
  | zero => rfl
  | succ m ih =>
    rw [List.replicate_succ, List.cons_append, parseDigitsAux]
    have : digitVal (digitChar 0) = some 0 := by decide
    rw [this]
    simpa using ih

lemma toDecimalAux_head (n : Nat) (hn : n ≠ 0) :
    ∀ rest, ∃ d l, d < 10 ∧ toDecimalAux n rest = digitChar d :: l := by
  induction n using Nat.strong_induction_on with
  | _ n ih =>
    intro rest
    match n, hn with
    | m + 1, _ =>
      rw [toDecimalAux]
      by_cases h10 : (m + 1) / 10 = 0
      · refine ⟨(m + 1) % 10, rest, Nat.mod_lt _ (by omega), ?_⟩
        rw [h10, toDecimalAux]
      · exact ih ((m + 1) / 10) (Nat.div_lt_self (Nat.succ_pos m) (by omega)) h10 _

lemma toDecimal_head (n : Nat) :
    ∃ d l, d < 10 ∧ toDecimal n = digitChar d :: l := by
  by_cases h : n = 0
  · exact ⟨0, [], by omega, by simp [h, toDecimal]⟩
  · rw [toDecimal, if_neg h]
    exact toDecimalAux_head n h []

lemma decimal4_head (n : Nat) :
    ∃ d l, d < 10 ∧ decimal4 n = digitChar d :: l := by
  obtain ⟨d, l, hd, hdec⟩ := toDecimal_head n
  rw [decimal4]
  cases hk : 4 - (toDecimal n).length with
  | zero => exact ⟨d, l, hd, by simpa using hdec⟩
  | succ m =>
    refine ⟨0, List.replicate m (digitChar 0) ++ toDecimal n, by omega, ?_⟩
    rw [List.replicate_succ, List.cons_append]

lemma parseU32_not_plus (c : Char) (l : List Char) (h : c ≠ '+') :
    parseU32 (c :: l) =
      match parseDigitsAux 0 (c :: l) with
      | some v => if v < 4294967296 then some v else none
      | none => none := by
  simp only [parseU32.eq_def, if_neg h]

lemma parseU32_decimal4 (n : Nat) (hn : n < 4294967296) :
    parseU32 (decimal4 n) = some n := by
  obtain ⟨d, l, hd, hdec⟩ := decimal4_head n
  have hplus : digitChar d ≠ '+' := by
    have h10 : ∀ e : Nat, e < 10 → digitChar e ≠ '+' := by decide
    exact h10 d hd
  have hparse : parseDigitsAux 0 (decimal4 n) = some n := by
    rw [decimal4, parseDigitsAux_replicate_zero, parseDigitsAux_toDecimal]
  rw [hdec, parseU32_not_plus _ _ hplus, ← hdec, hparse]
  simp [hn]

/-! ### Filenames (`File::filename`, `File::from_filename`) -/

/-- The literal prefix in `comic_{:04}.png`. -/
def comicLit : List Char := ['c', 'o', 'm', 'i', 'c', '_']

/-- The literal suffix in `comic_{:04}.png`. -/
def pngLit : List Char := ['.', 'p', 'n', 'g']

/-- The literal prefix in `info_{:04}`. -/
def infoLit : List Char := ['i', 'n', 'f', 'o', '_']

/-- The literal name of the refresh sentinel. -/
def refreshLit : List Char := ['r', 'e', 'f', 'r', 'e', 's', 'h']

/-- The literal name of the credits file. -/
def creditsLit : List Char := ['c', 'r', 'e', 'd', 'i', 't', 's']

/-- Per-comic metadata file names. -/
def altLit : List Char := ['a', 'l', 't']

def titleLit : List Char := ['t', 'i', 't', 'l', 'e']

def transcriptLit : List Char := ['t', 'r', 'a', 'n', 's', 'c', 'r', 'i', 'p', 't']

def dateLit : List Char := ['d', 'a', 't', 'e']

def rawImageLit : List Char := ['r', 'a', 'w', '_', 'i', 'm', 'a', 'g', 'e']

/-- `File::filename` (src/fs/file.rs:124-137). -/
def File.filename : File → List Char
  | .Root => []
  | .Refresh => refreshLit
  | .Credits => creditsLit
  | .Image num => comicLit ++ decimal4 num ++ pngLit
  | .MetaFolder num => infoLit ++ decimal4 num
  | .AltText _ => altLit
  | .Title _ => titleLit
  | .Transcript _ => transcriptLit
  | .Date _ => dateLit
  | .RawImage _ => rawImageLit

/-- `File::from_filename` (src/fs/file.rs:83-122).  Under `Root`,
`comic_*.png` strips the six-character prefix and the four-character
suffix (`split_at`) and parses the middle as a `u32`; `info_*` strips
the five-character prefix; `refresh` and `credits` are literals.  Under
a `MetaFolder`, the five per-comic names are literals.  Every other
parent accepts nothing. -/
def File.from_filename (parent : File) (filename : List Char) : Option File :=
  match parent with
  | .Refresh => none
  | .Credits => none
  | .Image _ => none
  | .AltText _ => none
  | .Title _ => none
  | .Transcript _ => none
  | .Date _ => none
  | .RawImage _ => none
  | .Root =>
    if comicLit.isPrefixOf filename && pngLit.isSuffixOf filename then
      let rest := filename.drop 6
      (parseU32 (rest.take (rest.length - 4))).map File.Image
    else if infoLit.isPrefixOf filename then
      (parseU32 (filename.drop 5)).map File.MetaFolder
    else if filename = refreshLit then some .Refresh
    else if filename = creditsLit then some .Credits
    else none
  | .MetaFolder num =>
    if filename = altLit then some (.AltText num)
    else if filename = titleLit then some (.Title num)
    else if filename = transcriptLit then some (.Transcript num)
    else if filename = dateLit then some (.Date num)
    else if filename = rawImageLit then some (.RawImage num)
    else none

/-- The parent directory of each identity: Refresh, Credits, Image and
MetaFolder live under Root; the per-comic metadata files live under
their comic's MetaFolder; Root has no parent. -/
def File.parentDir : File → Option File
  | .Root => none
  | .Refresh => some .Root
  | .Credits => some .Root
  | .Image _ => some .Root
  | .MetaFolder _ => some .Root
  | .AltText n => some (.MetaFolder n)
  | .Title n => some (.MetaFolder n)
  | .Transcript n => some (.MetaFolder n)
  | .Date n => some (.MetaFolder n)
  | .RawImage n => some (.MetaFolder n)

lemma from_filename_root_image (n : Nat) (hn : n < 4294967296) :
    File.from_filename .Root (comicLit ++ decimal4 n ++ pngLit) = some (.Image n) := by
  have hpre : comicLit.isPrefixOf (comicLit ++ decimal4 n ++ pngLit) = true := by
    rw [List.append_assoc, List.isPrefixOf_iff_prefix]
    exact List.prefix_append _ _
  have hsuf : pngLit.isSuffixOf (comicLit ++ decimal4 n ++ pngLit) = true := by
    rw [List.isSuffixOf_iff_suffix]
    exact List.suffix_append _ _
  have hdrop : (comicLit ++ decimal4 n ++ pngLit).drop 6 = decimal4 n ++ pngLit := by
    rw [List.append_assoc]
    exact List.drop_left comicLit _
  have hlen : (decimal4 n ++ pngLit).length - 4 = (decimal4 n).length := by
    simp [pngLit]
  have htake : (decimal4 n ++ pngLit).take ((decimal4 n ++ pngLit).length - 4)
      = decimal4 n := by
    rw [hlen]
    exact List.take_left _ _
  simp only [File.from_filename, hpre, hsuf, Bool.and_self, if_pos, hdrop, htake,
    parseU32_decimal4 n hn, Option.map_some']

lemma comicLit_not_prefix_info (n : Nat) :
    comicLit.isPrefixOf (infoLit ++ decimal4 n) = false := by
  rw [Bool.eq_false_iff]
  intro h
  rw [List.isPrefixOf_iff_prefix] at h
  have h1 := List.IsPrefix.head h ?_
  · simp [comicLit, infoLit] at h1
  · simp [comicLit]

lemma from_filename_root_info (n : Nat) (hn : n < 4294967296) :
    File.from_filename .Root (infoLit ++ decimal4 n) = some (.MetaFolder n) := by
  have hpre : infoLit.isPrefixOf (infoLit ++ decimal4 n) = true := by
    rw [List.isPrefixOf_iff_prefix]
    exact List.prefix_append _ _
  have hdrop : (infoLit ++ decimal4 n).drop 5 = decimal4 n :=
    List.drop_left infoLit _
  simp only [File.from_filename, comicLit_not_prefix_info n, Bool.false_and,
    Bool.false_eq_true, if_false, hpre, if_pos, hdrop, parseU32_decimal4 n hn,
    Option.map_some']

/-- C3.  For every defined identity with a defined parent, parsing the
identity's rendered filename against that parent recovers the identity:
`File::from_filename(&parent, identity.filename()) == Some(identity)`. -/
theorem claim_C3_filename_roundtrip :
    ∀ f : File, f.defined → ∀ p : File, f.parentDir = some p →
      File.from_filename p f.filename = some f := by
  intro f hf p hp
  cases f with
  | Root => exact Option.noConfusion hp
  | Refresh =>
      rw [File.parentDir, Option.some.injEq] at hp
      subst hp
      decide
  | Credits =>
      rw [File.parentDir, Option.some.injEq] at hp
      subst hp
      decide
  | Image n =>
      rw [File.parentDir, Option.some.injEq] at hp
      subst hp
      exact from_filename_root_image n hf.2
  | MetaFolder n =>
      rw [File.parentDir, Option.some.injEq] at hp
      subst hp
      exact from_filename_root_info n hf.2
  | AltText n =>
      rw [File.parentDir, Option.some.injEq] at hp
      subst hp
      simp [File.filename, File.from_filename]
  | Title n =>
      rw [File.parentDir, Option.some.injEq] at hp
      subst hp
      simp [File.filename, File.from_filename, titleLit, altLit]
  | Transcript n =>
      rw [File.parentDir, Option.some.injEq] at hp
      subst hp
      simp [File.filename, File.from_filename, transcriptLit, altLit, titleLit]
  | Date n =>
      rw [File.parentDir, Option.some.injEq] at hp
      subst hp
      simp [File.filename, File.from_filename, dateLit, altLit, titleLit, transcriptLit]
  | RawImage n =>
      rw [File.parentDir, Option.some.injEq] at hp
      subst hp
      simp [File.filename, File.from_filename, rawImageLit, altLit, titleLit,
        transcriptLit, dateLit]

theorem claim_C3_witness :
    File.from_filename .Root (File.Image 42).filename = some (.Image 42) :=
  claim_C3_filename_roundtrip (.Image 42) (by decide) .Root rfl

/-- C9.  At the excluded comic number 0, the public name-parsing and
inode-encoding interfaces break the bijection: `info_0` under Root
resolves to `MetaFolder 0`, whose inode is 1, the Root directory's
inode; `comic_0.png` resolves to `Image 0`, whose inode 0 decodes to
nothing; and `AltText 0` encodes to 2, the Refresh sentinel's inode. -/
theorem claim_C9_zero_comic_breaks_bijection :
    File.from_filename .Root ['i', 'n', 'f', 'o', '_', '0'] = some (.MetaFolder 0) ∧
    File.from_filename .Root ['c', 'o', 'm', 'i', 'c', '_', '0', '.', 'p', 'n', 'g']
      = some (.Image 0) ∧
    (File.MetaFolder 0).inode = 1 ∧
    (File.Root).inode = 1 ∧
    (File.AltText 0).inode = 2 ∧
    (File.Refresh).inode = 2 ∧
    (File.Image 0).inode = 0 ∧
    File.from_inode 0 = none := by
  refine ⟨?_, ?_, rfl, rfl, rfl, rfl, rfl, rfl⟩ <;> decide

/-! ### Directory enumeration (`File::filetype`, `File::child_by_index`) -/

/-- The FUSE file type, as used by `File::filetype`. -/
inductive FileType : Type where
  | RegularFile : FileType
  | Directory : FileType
deriving DecidableEq

/-- `File::filetype` (src/fs/file.rs:139-152). -/
def File.filetype : File → FileType
  | .Root => .Directory
  | .Refresh => .RegularFile
  | .Credits => .RegularFile
  | .Image _ => .RegularFile
  | .MetaFolder _ => .Directory
  | .AltText _ => .RegularFile
  | .Title _ => .RegularFile
  | .Transcript _ => .RegularFile
  | .Date _ => .RegularFile
  | .RawImage _ => .RegularFile

/-- `File::triple` (src/fs/file.rs:213-215). -/
def File.triple (f : File) : Option (Nat × FileType × List Char) :=
  some (f.inode, f.filetype, f.filename)

/-- `File::child_by_index` (src/fs/file.rs:154-210).  `index` and
`num_comics` are `u64`.  The guards `index <= num_comics + 3` and
`index <= 2 * num_comics + 3` compute in `u64` (wrapping on overflow in
release builds, hence the `% 2^64`), and the comic number passed to
`File::Image` / `File::MetaFolder` is truncated by an `as u32` cast
(hence the `% 2^32`).  The subtractions cannot underflow in the arms
where they occur for any `num_comics < 2^64 - 3` (the regime of every
theorem below), where Nat subtraction agrees with Rust. -/
def File.child_by_index (f : File) (index : Nat) (num_comics : Nat) :
    Option (Nat × FileType × List Char) :=
  match f with
  | .Root =>
    if index = 0 then some (File.Root.inode, File.Root.filetype, ['.'])
    else if index = 1 then some (File.Root.inode, File.Root.filetype, ['.', '.'])
    else if index = 2 then
      some (File.Refresh.inode, File.Refresh.filetype, File.Refresh.filename)
    else if index = 3 then
      some (File.Credits.inode, File.Credits.filetype, File.Credits.filename)
    else if index ≤ (num_comics + 3) % 18446744073709551616 then
      let file := File.Image ((index - 3) % 4294967296)
      some (file.inode, file.filetype, file.filename)
    else if index ≤ (2 * num_comics + 3) % 18446744073709551616 then
      let file := File.MetaFolder ((index - 3 - num_comics) % 4294967296)
      some (file.inode, file.filetype, file.filename)
    else none
  | .Refresh => none
  | .Credits => none
  | .Image _ => none
  | .MetaFolder num =>
    if num_comics < num then none
    else if index = 0 then
      some ((File.MetaFolder num).inode, (File.MetaFolder num).filetype, ['.'])
    else if index = 1 then some (File.Root.inode, File.Root.filetype, ['.', '.'])
    else if index = 2 then (File.AltText num).triple
    else if index = 3 then (File.Title num).triple
    else if index = 4 then (File.Transcript num).triple
    else if index = 5 then (File.Date num).triple
    else if index = 6 then (File.RawImage num).triple
    else none
  | .AltText _ => none
  | .Title _ => none
  | .Transcript _ => none
  | .Date _ => none
  | .RawImage _ => none

/-- C2 counterexample.  The claim quantifies over *every* comic count
`k ≥ 0`, but at `k = 2^32` the `(index - 3) as u32` cast wraps: the
entry at index `2^32 + 3` is `Image 0` (inode 0, which does not even
decode) while the entry at index `2^32 + 2` is `Image (2^32 - 1)`, so
the Image entries are not in ascending comic-number order. -/
theorem claim_C2_counterexample :
    File.child_by_index .Root 4294967298 4294967296
      = some ((File.Image 4294967295).inode, FileType.RegularFile,
          (File.Image 4294967295).filename) ∧
    File.child_by_index .Root 4294967299 4294967296
      = some ((File.Image 0).inode, FileType.RegularFile, (File.Image 0).filename) ∧
    (File.Image 0).inode = 0 ∧ File.from_inode 0 = none := by
  refine ⟨?_, ?_, rfl, rfl⟩
  · show File.child_by_index .Root 4294967298 4294967296 = _
    rw [File.child_by_index]
    rw [if_neg (by norm_num), if_neg (by norm_num), if_neg (by norm_num),
      if_neg (by norm_num), if_pos (by norm_num)]
    have hmod : (4294967298 - 3) % 4294967296 = 4294967295 := by norm_num
    rw [hmod]
    rfl
  · show File.child_by_index .Root 4294967299 4294967296 = _
    rw [File.child_by_index]
    rw [if_neg (by norm_num), if_neg (by norm_num), if_neg (by norm_num),
      if_neg (by norm_num), if_pos (by norm_num)]
    have hmod : (4294967299 - 3) % 4294967296 = 0 := by norm_num
    rw [hmod]
    rfl

/-- C2, amended with `k < 2^32` (the `u32` comic-number space, within
which no cast truncates).  Root enumeration returns "." at index 0 and
".." at index 1, the refresh and credits singleton files at indices 2
and 3, all Image files in ascending comic-number order (comic `i - 3`
at index `i` for `4 ≤ i ≤ k + 3`), then all MetaFolder directories in
ascending comic-number order (comic `i - 3 - k` at index `i` for
`k + 4 ≤ i ≤ 2k + 3`); every index up to `2k + 3` yields an entry and
enumeration ends exactly at index `2k + 4 = 2k + 3 + 1` (three
root-level singleton identities: Root, Refresh, Credits). -/
theorem claim_C2_root_enumeration (k : Nat) (hk : k < 4294967296) :
    File.child_by_index .Root 0 k = some (File.Root.inode, File.Root.filetype, ['.']) ∧
    File.child_by_index .Root 1 k
      = some (File.Root.inode, File.Root.filetype, ['.', '.']) ∧
    File.child_by_index .Root 2 k
      = some (File.Refresh.inode, File.Refresh.filetype, File.Refresh.filename) ∧
    File.child_by_index .Root 3 k
      = some (File.Credits.inode, File.Credits.filetype, File.Credits.filename) ∧
    (∀ i, 4 ≤ i → i ≤ k + 3 →
      File.child_by_index .Root i k
        = some ((File.Image (i - 3)).inode, FileType.RegularFile,
            (File.Image (i - 3)).filename)) ∧
    (∀ i, k + 4 ≤ i → i ≤ 2 * k + 3 →
      File.child_by_index .Root i k
        = some ((File.MetaFolder (i - 3 - k)).inode, FileType.Directory,
            (File.MetaFolder (i - 3 - k)).filename)) ∧
    (∀ i, i ≤ 2 * k + 3 → (File.child_by_index .Root i k).isSome = true) ∧
    (∀ i, 2 * k + 4 ≤ i → File.child_by_index .Root i k = none) := by
  have h64a : (k + 3) % 18446744073709551616 = k + 3 := Nat.mod_eq_of_lt (by omega)
  have h64b : (2 * k + 3) % 18446744073709551616 = 2 * k + 3 :=
    Nat.mod_eq_of_lt (by omega)
  have himg : ∀ i, 4 ≤ i → i ≤ k + 3 →
      File.child_by_index .Root i k
        = some ((File.Image (i - 3)).inode, FileType.RegularFile,
            (File.Image (i - 3)).filename) := by
    intro i h4 hik
    rw [File.child_by_index]
    rw [if_neg (by omega : ¬ i = 0), if_neg (by omega : ¬ i = 1),
      if_neg (by omega : ¬ i = 2), if_neg (by omega : ¬ i = 3), h64a, if_pos hik]
    have hmod : (i - 3) % 4294967296 = i - 3 := Nat.mod_eq_of_lt (by omega)
    rw [hmod]
    rfl
  have hmeta : ∀ i, k + 4 ≤ i → i ≤ 2 * k + 3 →
      File.child_by_index .Root i k
        = some ((File.MetaFolder (i - 3 - k)).inode, FileType.Directory,
            (File.MetaFolder (i - 3 - k)).filename) := by
    intro i hk4 hik
    rw [File.child_by_index]
    rw [if_neg (by omega : ¬ i = 0), if_neg (by omega : ¬ i = 1),
      if_neg (by omega : ¬ i = 2), if_neg (by omega : ¬ i = 3), h64a,
      if_neg (by omega : ¬ i ≤ k + 3), h64b, if_pos hik]
    have hmod : (i - 3 - k) % 4294967296 = i - 3 - k := Nat.mod_eq_of_lt (by omega)
    rw [hmod]
    rfl
  have hsome : ∀ i, i ≤ 2 * k + 3 → (File.child_by_index .Root i k).isSome = true := by
    intro i hi
    rcases Nat.lt_or_ge i 4 with h4 | h4
    · interval_cases i <;> rfl
    · rcases Nat.lt_or_ge i (k + 4) with hik | hik
      · rw [himg i h4 (by omega)]
        rfl
      · rw [hmeta i hik hi]
        rfl
  have hnone : ∀ i, 2 * k + 4 ≤ i → File.child_by_index .Root i k = none := by
    intro i hi
    rw [File.child_by_index]
    rw [if_neg (by omega : ¬ i = 0), if_neg (by omega : ¬ i = 1),
      if_neg (by omega : ¬ i = 2), if_neg (by omega : ¬ i = 3), h64a,
      if_neg (by omega : ¬ i ≤ k + 3), h64b, if_neg (by omega : ¬ i ≤ 2 * k + 3)]
  exact ⟨rfl, rfl, rfl, rfl, himg, hmeta, hsome, hnone⟩

theorem claim_C2_witness :
    (1 : Nat) < 4294967296 ∧
    (File.child_by_index .Root 0 1
      = some (File.Root.inode, File.Root.filetype, ['.']) ∧
    File.child_by_index .Root 1 1
      = some (File.Root.inode, File.Root.filetype, ['.', '.']) ∧
    File.child_by_index .Root 2 1
      = some (File.Refresh.inode, File.Refresh.filetype, File.Refresh.filename) ∧
    File.child_by_index .Root 3 1
      = some (File.Credits.inode, File.Credits.filetype, File.Credits.filename) ∧
    (∀ i, 4 ≤ i → i ≤ 1 + 3 →
      File.child_by_index .Root i 1
        = some ((File.Image (i - 3)).inode, FileType.RegularFile,
            (File.Image (i - 3)).filename)) ∧
    (∀ i, 1 + 4 ≤ i → i ≤ 2 * 1 + 3 →
      File.child_by_index .Root i 1
        = some ((File.MetaFolder (i - 3 - 1)).inode, FileType.Directory,
            (File.MetaFolder (i - 3 - 1)).filename)) ∧
    (∀ i, i ≤ 2 * 1 + 3 → (File.child_by_index .Root i 1).isSome = true) ∧
    (∀ i, 2 * 1 + 4 ≤ i → File.child_by_index .Root i 1 = none)) :=
  ⟨by norm_num, claim_C2_root_enumeration 1 (by norm_num)⟩

/-! ### FUSE protocol handler (src/fs/mod.rs): read clamping and write -/

/-- `libc::EPERM`. -/
def EPERM : Nat := 1

/-- `libc::ENOENT`. -/
def ENOENT : Nat := 2

/-- `libc::ENOTDIR`. -/
def ENOTDIR : Nat := 20

/-- `libc::EISDIR`. -/
def EISDIR : Nat := 21

/-- `libc::EINVAL`. -/
def EINVAL : Nat := 22

/-- `libc::EREMOTEIO`. -/
def EREMOTEIO : Nat := 121

/-- The `reply_from_slice` closure inside `XkcdFs::read`
(src/fs/mod.rs:304-326), applied to an `Ok` slice: `offset` is the
(non-negative, per the `try_into().unwrap()`) byte offset, `size` the
requested `u32` size, and the result is either an error code or the
slice `bytes[offset .. min(offset + size, bytes.len())]`. -/
def reply_from_slice (bytes : List Nat) (offset : Nat) (size : Nat) :
    Except Nat (List Nat) :=
  let range_end := min (offset + size) bytes.length
  if bytes.length ≤ offset then .error EINVAL
  else if range_end ≤ offset then .error EINVAL
  else .ok ((bytes.drop offset).take (range_end - offset))

/-- C4 counterexample.  The claim asserts that *every* read at offset
`o < L` with requested size `s` returns the clamped range
`[o, min(o+s,L))`; but at `s = 0` (an empty requested range, `o < L`)
the code replies `EINVAL` ("range ends before it begins") instead of
the empty range the claim demands. -/
theorem claim_C4_counterexample :
    reply_from_slice [37] 0 0 = Except.error EINVAL ∧
    Except.error EINVAL
      ≠ Except.ok (List.take (min (0 + 0) [37].length - 0) (List.drop 0 [37])) := by
  constructor
  · rfl
  · intro h
    exact Except.noConfusion h

/-- C4, amended: for a *positive* requested size the claim holds as
stated (offset at or past the content length is `EINVAL`; otherwise the
read returns exactly the byte range `[o, min(o+s, L))`, and at offset
`L - 1` any size `s ≥ 1` returns exactly one byte); a requested size of
0 always fails with `EINVAL`. -/
theorem claim_C4_read_clamping (bytes : List Nat) (o s : Nat) (hs : 1 ≤ s) :
    (bytes.length ≤ o → reply_from_slice bytes o s = .error EINVAL) ∧
    (o < bytes.length →
      reply_from_slice bytes o s
        = .ok ((bytes.drop o).take (min (o + s) bytes.length - o))) ∧
    (o + 1 = bytes.length → ∃ b, reply_from_slice bytes o s = .ok [b]) ∧
    reply_from_slice bytes o 0 = .error EINVAL := by
  refine ⟨?_, ?_, ?_, ?_⟩
  · intro h
    rw [reply_from_slice]
    rw [if_pos h]
  · intro h
    rw [reply_from_slice]
    rw [if_neg (by omega), if_neg (by omega : ¬ min (o + s) bytes.length ≤ o)]
  · intro h
    have hrange : min (o + s) bytes.length = bytes.length := by omega
    have hres : reply_from_slice bytes o s
        = .ok ((bytes.drop o).take (min (o + s) bytes.length - o)) := by
      rw [reply_from_slice]
      rw [if_neg (by omega), if_neg (by omega : ¬ min (o + s) bytes.length ≤ o)]
    have hdlen : (bytes.drop o).length = 1 := by
      rw [List.length_drop]
      omega
    obtain ⟨b, hb⟩ := List.length_eq_one.mp hdlen
    refine ⟨b, ?_⟩
    rw [hres, hrange, hb]
    have h1 : bytes.length - o = 1 := by omega
    rw [h1]
    rfl
  · rw [reply_from_slice]
    rcases Nat.lt_or_ge o bytes.length with h | h
    · rw [if_neg (by omega), if_pos (by omega : min (o + 0) bytes.length ≤ o)]
    · rw [if_pos (by omega)]

theorem claim_C4_witness :
    (1 : Nat) ≤ 99 ∧
    (([10, 20, 30] : List Nat).length ≤ 7 →
      reply_from_slice [10, 20, 30] 7 99 = .error EINVAL) ∧
    (7 < ([10, 20, 30] : List Nat).length →
      reply_from_slice [10, 20, 30] 7 99
        = .ok (([10, 20, 30] : List Nat).drop 7 |>.take
            (min (7 + 99) ([10, 20, 30] : List Nat).length - 7))) ∧
    (7 + 1 = ([10, 20, 30] : List Nat).length →
      ∃ b, reply_from_slice [10, 20, 30] 7 99 = .ok [b]) ∧
    reply_from_slice [10, 20, 30] 7 0 = .error EINVAL :=
  ⟨by decide, claim_C4_read_clamping [10, 20, 30] 7 99 (by decide)⟩

/-! ### The write operation and request modes -/

/-- `RequestMode` (src/requests/mod.rs:10-15). -/
inductive RequestMode : Type where
  | Normal : RequestMode
  | NoNetwork : RequestMode
  | BustCache : RequestMode
  | VeryFast : RequestMode
deriving DecidableEq

/-- `RequestMode::network` (src/requests/mod.rs:18-25). -/
def RequestMode.network : RequestMode → Bool
  | .Normal => true
  | .NoNetwork => false
  | .BustCache => true
  | .VeryFast => false

/-- `RequestMode::cache` (src/requests/mod.rs:27-34). -/
def RequestMode.cache : RequestMode → Bool
  | .Normal => true
  | .NoNetwork => true
  | .BustCache => false
  | .VeryFast => true

/-- `RequestMode::render` (src/requests/mod.rs:36-43). -/
def RequestMode.render : RequestMode → Bool
  | .Normal => true
  | .NoNetwork => true
  | .BustCache => true
  | .VeryFast => false

/-- A FUSE write reply: either a byte count (`reply.written`) or an
error code (`reply.error`). -/
inductive WriteReply : Type where
  | written (count : Nat) : WriteReply
  | error (code : Nat) : WriteReply
deriving DecidableEq

/-- Result of `XkcdFs::write`: the reply sent, together with a record
of whether (and with which mode) `request_latest_comic` was invoked as
a side effect. -/
structure WriteResult : Type where
  latestRequest : Option RequestMode
  reply : WriteReply
deriving DecidableEq

/-- `XkcdFs::write` (src/fs/mod.rs:431-463): decode the inode; a write
to Refresh calls `request_latest_comic(None, BustCache)` and replies
`written(data.len() as u32)` (the `as u32` cast truncates mod 2^32);
any other decodable inode replies `EPERM`; an undecodable inode replies
`ENOENT`. -/
def XkcdFs.write (ino : Nat) (data : List Nat) : WriteResult :=
  match File.from_inode ino with
  | some .Refresh => ⟨some .BustCache, .written (data.length % 4294967296)⟩
  | some _ => ⟨none, .error EPERM⟩
  | none => ⟨none, .error ENOENT⟩

/-- C5 counterexample.  The claim asserts that for *every* payload the
reply reports the full payload length, but `reply.written` takes a
`u32` and `data.len() as u32` truncates: a payload of length `2^32`
is reported as 0 bytes written. -/
theorem claim_C5_counterexample :
    (XkcdFs.write 2 (List.replicate 4294967296 0)).reply = .written 0 ∧
    (List.replicate 4294967296 (0 : Nat)).length = 4294967296 ∧
    WriteReply.written 0 ≠ WriteReply.written 4294967296 := by
  refine ⟨?_, List.length_replicate 4294967296 0, by decide⟩
  have h2 : File.from_inode 2 = some .Refresh := rfl
  rw [XkcdFs.write, h2, List.length_replicate, Nat.mod_self]

/-- C5, amended: for payloads shorter than `2^32` bytes (all payloads
the 32-bit reply field can report), a write to the Refresh sentinel
invokes the latest-comic fetch with the BustCache mode — which skips
cache reads but allows network — and reports the full payload length
regardless of content; a write to any other decodable inode is EPERM
with no fetch; a write to an undecodable inode is ENOENT with no
fetch. -/
theorem claim_C5_write_refresh (data : List Nat) (hlen : data.length < 4294967296) :
    XkcdFs.write File.Refresh.inode data
      = ⟨some .BustCache, .written data.length⟩ ∧
    RequestMode.BustCache.cache = false ∧
    RequestMode.BustCache.network = true ∧
    (∀ ino f, File.from_inode ino = some f → f ≠ .Refresh →
      XkcdFs.write ino data = ⟨none, .error EPERM⟩) ∧
    (∀ ino, File.from_inode ino = none →
      XkcdFs.write ino data = ⟨none, .error ENOENT⟩) ∧
    (∀ data2 : List Nat, data2.length = data.length →
      XkcdFs.write File.Refresh.inode data2 = XkcdFs.write File.Refresh.inode data) := by
  have hR : File.from_inode File.Refresh.inode = some .Refresh := rfl
  refine ⟨?_, rfl, rfl, ?_, ?_, ?_⟩
  · rw [XkcdFs.write, hR]
    rw [Nat.mod_eq_of_lt hlen]
  · intro ino f h hne
    rw [XkcdFs.write, h]
    cases f with
    | Refresh => exact absurd rfl hne
    | _ => rfl
  · intro ino h
    rw [XkcdFs.write, h]
  · intro data2 h2
    rw [XkcdFs.write, hR, XkcdFs.write, hR, h2]

theorem claim_C5_witness :
    ([101, 102] : List Nat).length < 4294967296 ∧
    (XkcdFs.write File.Refresh.inode [101, 102]
      = ⟨some .BustCache, .written ([101, 102] : List Nat).length⟩ ∧
    RequestMode.BustCache.cache = false ∧
    RequestMode.BustCache.network = true ∧
    (∀ ino f, File.from_inode ino = some f → f ≠ .Refresh →
      XkcdFs.write ino [101, 102] = ⟨none, .error EPERM⟩) ∧
    (∀ ino, File.from_inode ino = none →
      XkcdFs.write ino [101, 102] = ⟨none, .error ENOENT⟩) ∧
    (∀ data2 : List Nat, data2.length = ([101, 102] : List Nat).length →
      XkcdFs.write File.Refresh.inode data2
        = XkcdFs.write File.Refresh.inode [101, 102])) :=
  ⟨by decide, claim_C5_write_refresh [101, 102] (by decide)⟩

/-! ### Retrieval orchestrator (src/requests/mod.rs)

The orchestrator's collaborators (the SQLite cache store and the remote
HTTP API) are external; each request function below therefore takes the
outcome of every collaborator call it can make as an explicit argument.
Error payloads only feed log messages, so they are modelled as `Unit`. -/

/-- The `Comic` value object (src/xkcd.rs:4-21). -/
structure Comic : Type where
  num : Nat
  day : Int
  month : Int
  year : Int
  link : Option (List Char)
  news : Option (List Char)
  alt : List Char
  title : List Char
  safe_title : List Char
  img_url : List Char
  img_len : Option Nat
deriving DecidableEq

/-- `XkcdClient::request_comic` (src/requests/mod.rs:118-157).
`cacheRes` is the outcome of `database::get_comic` (`Ok(Some)` hit,
`Ok(None)` miss, `Err` cache failure), `netRes` of
`api::get_comic(Some(num))`, `insertRes` of `database::insert_comic`.
Note the `.unwrap()` on the insert result (line 143): a successful
fetch whose cache write fails panics. -/
def request_comic (mode : RequestMode) (cacheRes : Except Unit (Option Comic))
    (netRes : Except Unit Comic) (insertRes : Except Unit Unit) :
    PanicOr (Option Comic) :=
  let cacheHit : Option Comic :=
    if mode.cache then
      match cacheRes with
      | .ok (some c) => some c
      | .ok none => none
      | .error _ => none
    else none
  match cacheHit with
  | some c => .ok (some c)
  | none =>
    if mode.network then
      match netRes with
      | .ok c =>
        match insertRes with
        | .ok _ => .ok (some c)
        | .error _ => .panicked
      | .error _ => .ok none
    else .ok none

/-- `XkcdClient::request_latest_comic` (src/requests/mod.rs:74-116).
Identical tier structure, but the insert outcome is discarded with
`.ok()` (line 101): the function cannot panic and its result does not
depend on `insertRes`. -/
def request_latest_comic (mode : RequestMode)
    (cacheRes : Except Unit (Option Comic)) (netRes : Except Unit Comic)
    (insertRes : Except Unit Unit) : Option Comic :=
  let cacheHit : Option Comic :=
    if mode.cache then
      match cacheRes with
      | .ok (some c) => some c
      | .ok none => none
      | .error _ => none
    else none
  match cacheHit with
  | some c => some c
  | none =>
    if mode.network then
      match netRes with
      | .ok c => some c
      | .error _ => none
    else none

/-- `XkcdClient::request_raw_image` (src/requests/mod.rs:159-197).
The cache tier is `if let Ok(i) = database::get_raw_image(..)` (miss
and failure are the same `Err`); the insert outcome is discarded with
`.ok()` (line 186). -/
def request_raw_image (mode : RequestMode) (cacheRes : Except Unit (List Nat))
    (netRes : Except Unit (List Nat)) (insertRes : Except Unit Unit) :
    Option (List Nat) :=
  let cacheHit : Option (List Nat) :=
    if mode.cache then
      match cacheRes with
      | .ok i => some i
      | .error _ => none
    else none
  match cacheHit with
  | some i => some i
  | none =>
    if mode.network then
      match netRes with
      | .ok i => some i
      | .error _ => none
    else none

/-- `XkcdClient::request_rendered_image` (src/requests/mod.rs:199-247).
On a cache miss with rendering allowed, the raw image is obtained
recursively under the same mode (the `?` propagates `None`), the image
compositor runs (`renderRes`, which can panic — see C10), a render
failure falls through to `None`, and a failure of
`database::insert_rendered_image` is logged only (lines 230-235): the
result does not depend on `insertRes`. -/
def request_rendered_image {ε : Type} (mode : RequestMode)
    (cacheRes : Except Unit (List Nat)) (rawCacheRes : Except Unit (List Nat))
    (rawNetRes : Except Unit (List Nat)) (rawInsertRes : Except Unit Unit)
    (renderRes : List Nat → PanicOr (Except ε (List Nat)))
    (insertRes : Except Unit Unit) : PanicOr (Option (List Nat)) :=
  let cacheHit : Option (List Nat) :=
    if mode.cache then
      match cacheRes with
      | .ok i => some i
      | .error _ => none
    else none
  match cacheHit with
  | some i => .ok (some i)
  | none =>
    if mode.render then
      match request_raw_image mode rawCacheRes rawNetRes rawInsertRes with
      | none => .ok none
      | some raw =>
        match renderRes raw with
        | .panicked => .panicked
        | .ok (.ok image) => .ok (some image)
        | .ok (.error _) => .ok none
    else .ok none

/-- A concrete comic value used in counterexamples and witnesses. -/
def sampleComic : Comic :=
  ⟨42, 17, 4, 2020, none, none, ['x'], ['t'], ['t'], ['u'], none⟩

/-- C6 counterexample.  The claim says a cache-store write failure is
swallowed for every resource kind and that `request_comic` under a
network-allowing mode returns the fetched comic even if the insert
fails, never panicking.  But `request_comic` unwraps the insert result:
with mode Normal, a cache miss, a successful fetch and a failing
insert, it panics instead of returning the comic. -/
theorem claim_C6_counterexample :
    request_comic .Normal (.ok none) (.ok sampleComic) (.error ()) = .panicked ∧
    RequestMode.Normal.network = true ∧
    PanicOr.panicked ≠ PanicOr.ok (some sampleComic) := by
  refine ⟨rfl, rfl, ?_⟩
  intro h
  exact PanicOr.noConfusion h

/-- C6, amended: cache-store write failures are swallowed (logged only)
for the latest-comic, raw-image and rendered-image requests — their
results do not depend on the insert outcome at all, and a successful
fetch is returned to the caller — but `request_comic` (comic metadata
by number) unwraps its insert result: on a successful network fetch it
returns the comic only when the cache insert succeeds, and panics when
the insert fails. -/
theorem claim_C6_cache_write_swallowed :
    (∀ mode cacheRes netRes i1 i2,
      request_latest_comic mode cacheRes netRes i1
        = request_latest_comic mode cacheRes netRes i2) ∧
    (∀ mode cacheRes netRes i1 i2,
      request_raw_image mode cacheRes netRes i1
        = request_raw_image mode cacheRes netRes i2) ∧
    (∀ (ε : Type) mode cacheRes rcr rnr rir
        (rr : List Nat → PanicOr (Except ε (List Nat))) i1 i2,
      request_rendered_image mode cacheRes rcr rnr rir rr i1
        = request_rendered_image mode cacheRes rcr rnr rir rr i2) ∧
    (∀ c i, request_latest_comic .BustCache (.ok none) (.ok c) i = some c) ∧
    (∀ c i, request_latest_comic .Normal (.ok none) (.ok c) i = some c) ∧
    (∀ c i, request_raw_image .Normal (.error ()) (.ok c) i = some c) ∧
    (∀ c, request_comic .Normal (.ok none) (.ok c) (.ok ()) = .ok (some c)) ∧
    (∀ c, request_comic .Normal (.ok none) (.ok c) (.error ()) = .panicked) :=
  ⟨fun _ _ _ _ _ => rfl, fun _ _ _ _ _ => rfl, fun _ _ _ _ _ _ _ _ _ => rfl,
   fun _ _ => rfl, fun _ _ => rfl, fun _ _ => rfl, fun _ => rfl, fun _ => rfl⟩

/-! ### Image compositor: line breaking (src/image.rs:144-234)

`break_text` iterates over the break opportunities produced by the
`unicode_linebreak` crate and measures candidate lines with cairo's
`Context::text_extents`; both are external collaborators, modelled as
an explicit breakpoint list and a measurement oracle.  Byte positions
are modelled as character positions (breakpoints always fall on
character boundaries).  The `f64` extents fields are modelled as `ℚ`
(the algorithm only compares and adds them). -/

/-- `cairo::TextExtents`, with `f64` fields modelled as `ℚ`. -/
structure TextExtents : Type where
  x_bearing : ℚ
  y_bearing : ℚ
  width : ℚ
  height : ℚ
  x_advance : ℚ
  y_advance : ℚ
deriving DecidableEq

/-- The all-zero extents `break_text` starts from (src/image.rs:156-163). -/
def zeroExtents : TextExtents := ⟨0, 0, 0, 0, 0, 0⟩

/-- `unicode_linebreak::BreakOpportunity`. -/
inductive BreakOpportunity : Type where
  | Mandatory : BreakOpportunity
  | Allowed : BreakOpportunity
deriving DecidableEq

/-- The Rust slice `&text[a..b]`. -/
def sliceStr (text : List Char) (a b : Nat) : List Char :=
  (text.drop a).take (b - a)

/-- The loop state of `break_text`: `segment_start`, `last_location`,
`last_extents` and the committed `lines`, exactly the mutable locals of
src/image.rs:151-163. -/
structure BreakState : Type where
  segment_start : Nat
  last_location : Nat
  last_extents : TextExtents
  lines : List (TextExtents × List Char)

/-- One iteration of the `for (location, opp_kind) in linebreaks(text)`
loop of `break_text` (src/image.rs:165-231): a mandatory break commits
the proposed line as-is; an over-wide candidate with a distinct
previous location commits the previous segment (pairing it — as the
source does — with the *proposed* line's extents); an over-wide
candidate with no fallback commits itself; otherwise the candidate is
extended. -/
def breakStep (measure : List Char → TextExtents) (text : List Char)
    (target_width : ℚ) (st : BreakState) (bp : Nat × BreakOpportunity) :
    BreakState :=
  let location := bp.1
  let proposed_line := sliceStr text st.segment_start location
  let proposed_extents := measure proposed_line
  if bp.2 = BreakOpportunity.Mandatory then
    ⟨location, location, proposed_extents,
      st.lines ++ [(proposed_extents, proposed_line)]⟩
  else if target_width < proposed_extents.width ∧
      st.last_location ≠ st.segment_start then
    let last_line := sliceStr text st.segment_start st.last_location
    ⟨st.last_location, location, proposed_extents,
      st.lines ++ [(proposed_extents, last_line)]⟩
  else if target_width < proposed_extents.width ∧
      st.last_location = st.segment_start then
    ⟨location, location, proposed_extents,
      st.lines ++ [(proposed_extents, proposed_line)]⟩
  else
    ⟨st.segment_start, location, proposed_extents, st.lines⟩

/-- `break_text` (src/image.rs:144-234), with the collaborator outputs
(`linebreaks(text)` and the measurement context) passed explicitly. -/
def break_text (measure : List Char → TextExtents) (text : List Char)
    (target_width : ℚ) (breaks : List (Nat × BreakOpportunity)) :
    List (TextExtents × List Char) :=
  (breaks.foldl (breakStep measure text target_width) ⟨0, 0, zeroExtents, []⟩).lines

/-- Break positions are non-decreasing starting from `n` (the
`unicode_linebreak` crate yields positions in increasing order). -/
def posLe : Nat → List (Nat × BreakOpportunity) → Prop
  | _, [] => True
  | n, p :: rest => n ≤ p.1 ∧ posLe p.1 rest

instance instDecPosLe : (n : Nat) → (l : List (Nat × BreakOpportunity)) →
    Decidable (posLe n l)
  | _, [] => .isTrue trivial
  | n, p :: rest =>
    haveI := instDecPosLe p.1 rest
    inferInstanceAs (Decidable (n ≤ p.1 ∧ posLe p.1 rest))

/-- No break opportunity lies strictly inside `(a, b)`. -/
def NoBreakInside (bs : List (Nat × BreakOpportunity)) (a b : Nat) : Prop :=
  ∀ p ∈ bs, ¬(a < p.1 ∧ p.1 < b)

/-- Concatenation of the emitted line texts, in order. -/
def linesText (lines : List (TextExtents × List Char)) : List Char :=
  (lines.map (fun el => el.2)).flatten

lemma posLe_mono :
    ∀ (l : List (Nat × BreakOpportunity)) (n : Nat), posLe n l →
      ∀ p ∈ l, n ≤ p.1 := by
  intro l
  induction l with
  | nil => intro n _ p hp; exact absurd hp (List.not_mem_nil p)
  | cons q rest ih =>
    intro n hle p hp
    obtain ⟨hq, hrest⟩ := hle
    rcases List.mem_cons.mp hp with h | h
    · subst h; exact hq
    · exact le_trans hq (ih q.1 hrest p h)

lemma posLe_last_bound :
    ∀ (l : List (Nat × BreakOpportunity)) (n : Nat) (q : Nat × BreakOpportunity),
      posLe n (l ++ [q]) → ∀ p ∈ l, p.1 ≤ q.1 := by
  intro l
  induction l with
  | nil => intro n q _ p hp; exact absurd hp (List.not_mem_nil p)
  | cons r rest ih =>
    intro n q hle p hp
    obtain ⟨hr, hrest⟩ := hle
    rcases List.mem_cons.mp hp with h | h
    · subst h
      exact posLe_mono (rest ++ [q]) p.1 hrest q (by simp)
    · exact ih r.1 q hrest p h

/-- An emitted line is acceptable when its measured width fits the
target, or it is a slice of the text that ends at a mandatory break or
contains no break opportunity strictly inside it (no shorter
alternative line existed). -/
def LineOk (measure : List Char → TextExtents) (text : List Char) (T : ℚ)
    (bs : List (Nat × BreakOpportunity)) (l : List Char) : Prop :=
  (measure l).width ≤ T ∨
  ∃ a b, a ≤ b ∧ l = sliceStr text a b ∧
    ((b, BreakOpportunity.Mandatory) ∈ bs ∨ NoBreakInside bs a b)

/-- Loop invariant for `break_text`: the current segment is ordered,
the pending candidate `[segment_start, last_location)` is either empty,
measured within the target, or free of interior break opportunities,
and every committed line is acceptable. -/
def StOk (measure : List Char → TextExtents) (text : List Char) (T : ℚ)
    (bs : List (Nat × BreakOpportunity)) (st : BreakState) : Prop :=
  st.segment_start ≤ st.last_location ∧
  (st.segment_start = st.last_location ∨
   (measure (sliceStr text st.segment_start st.last_location)).width ≤ T ∨
   NoBreakInside bs st.segment_start st.last_location) ∧
  ∀ el ∈ st.lines, LineOk measure text T bs el.2

lemma break_inv (measure : List Char → TextExtents) (text : List Char) (T : ℚ)
    (bs : List (Nat × BreakOpportunity)) :
    ∀ (rem : List (Nat × BreakOpportunity)) (st : BreakState),
      posLe st.last_location rem →
      (∀ p ∈ rem, p ∈ bs) →
      (∀ p ∈ bs, p ∈ rem ∨ p.1 ≤ st.last_location) →
      StOk measure text T bs st →
      StOk measure text T bs (rem.foldl (breakStep measure text T) st) := by
  intro rem
  induction rem with
  | nil => intro st _ _ _ hst; simpa using hst
  | cons cur rest ih =>
    intro st hsort hsub hbound hst
    rw [List.foldl_cons]
    obtain ⟨hcur_le, hrest_sort⟩ := hsort
    have hcur_bs : cur ∈ bs := hsub cur (List.mem_cons_self cur rest)
    have hsub' : ∀ p ∈ rest, p ∈ bs := fun p hp => hsub p (List.mem_cons_of_mem cur hp)
    have hnb : NoBreakInside bs st.last_location cur.1 := by
      intro p hp hcontra
      obtain ⟨hp1, hp2⟩ := hcontra
      rcases hbound p hp with hin | hle
      · rcases List.mem_cons.mp hin with heq | hin'
        · subst heq; omega
        · have := posLe_mono rest cur.1 hrest_sort p hin'
          omega
      · omega
    have hll : (breakStep measure text T st cur).last_location = cur.1 := by
      rw [breakStep]
      split_ifs <;> rfl
    apply ih
    · rw [hll]; exact hrest_sort
    · exact hsub'
    · intro p hp
      rcases hbound p hp with hin | hle
      · rcases List.mem_cons.mp hin with heq | hin'
        · right; rw [hll, ← heq]
        · left; exact hin'
      · right; rw [hll]; omega
    · obtain ⟨hss_ll, hmid, hlines⟩ := hst
      rw [breakStep]
      split_ifs with h1 h2 h3
      · refine ⟨le_refl _, Or.inl rfl, ?_⟩
        intro el hel
        rcases List.mem_append.mp hel with h | h
        · exact hlines el h
        · rw [List.mem_singleton] at h
          subst h
          right
          refine ⟨st.segment_start, cur.1, by omega, rfl, Or.inl ?_⟩
          rw [← h1]
          exact hcur_bs
      · refine ⟨hcur_le, Or.inr (Or.inr hnb), ?_⟩
        intro el hel
        rcases List.mem_append.mp hel with h | h
        · exact hlines el h
        · rw [List.mem_singleton] at h
          subst h
          rcases hmid with heq | hwle | hnbi
          · exact absurd heq.symm h2.2
          · exact Or.inl hwle
          · exact Or.inr ⟨st.segment_start, st.last_location, hss_ll, rfl, Or.inr hnbi⟩
      · refine ⟨le_refl _, Or.inl rfl, ?_⟩
        intro el hel
        rcases List.mem_append.mp hel with h | h
        · exact hlines el h
        · rw [List.mem_singleton] at h
          subst h
          right
          refine ⟨st.segment_start, cur.1, by omega, rfl, Or.inr ?_⟩
          rw [h3.2] at hnb
          exact hnb
      · refine ⟨le_trans hss_ll hcur_le, Or.inr (Or.inl ?_), hlines⟩
        by_cases hw : T < (measure (sliceStr text st.segment_start cur.1)).width
        · by_cases hls : st.last_location = st.segment_start
          · exact absurd ⟨hw, hls⟩ h3
          · exact absurd ⟨hw, hls⟩ h2
        · exact le_of_not_lt hw

lemma linesText_append (l1 : List (TextExtents × List Char))
    (x : TextExtents × List Char) :
    linesText (l1 ++ [x]) = linesText l1 ++ x.2 := by
  simp [linesText]

lemma take_append_slice (text : List Char) (a b : Nat) (h : a ≤ b) :
    text.take a ++ sliceStr text a b = text.take b := by
  conv_rhs => rw [show b = a + (b - a) by omega]
  rw [List.take_add]
  rfl

lemma posLe_append_left :
    ∀ (l1 l2 : List (Nat × BreakOpportunity)) (n : Nat),
      posLe n (l1 ++ l2) → posLe n l1 := by
  intro l1
  induction l1 with
  | nil => intro l2 n _; trivial
  | cons q rest ih =>
    intro l2 n h
    obtain ⟨hq, hrest⟩ := h
    exact ⟨hq, ih l2 q.1 hrest⟩

lemma break_concat (measure : List Char → TextExtents) (text : List Char) (T : ℚ) :
    ∀ (rem : List (Nat × BreakOpportunity)) (st : BreakState),
      posLe st.last_location rem →
      st.segment_start ≤ st.last_location →
      linesText st.lines = text.take st.segment_start →
      linesText (rem.foldl (breakStep measure text T) st).lines
          = text.take (rem.foldl (breakStep measure text T) st).segment_start ∧
      (rem.foldl (breakStep measure text T) st).segment_start
          ≤ (rem.foldl (breakStep measure text T) st).last_location ∧
      ((rem.foldl (breakStep measure text T) st).last_location = st.last_location ∨
        ∃ p ∈ rem, (rem.foldl (breakStep measure text T) st).last_location = p.1) := by
  intro rem
  induction rem with
  | nil =>
    intro st _ hss hlt
    exact ⟨hlt, hss, Or.inl rfl⟩
  | cons cur rest ih =>
    intro st hsort hss hlt
    rw [List.foldl_cons]
    obtain ⟨hcur_le, hrest_sort⟩ := hsort
    have hll : (breakStep measure text T st cur).last_location = cur.1 := by
      rw [breakStep]
      split_ifs <;> rfl
    have hss' : (breakStep measure text T st cur).segment_start
        ≤ (breakStep measure text T st cur).last_location := by
      rw [breakStep]
      split_ifs
      · exact le_refl _
      · exact hcur_le
      · exact le_refl _
      · exact le_trans hss hcur_le
    have hlt' : linesText (breakStep measure text T st cur).lines
        = text.take (breakStep measure text T st cur).segment_start := by
      rw [breakStep]
      split_ifs
      · show linesText (st.lines ++ [(_, sliceStr text st.segment_start cur.1)])
            = text.take cur.1
        rw [linesText_append, hlt]
        exact take_append_slice text _ _ (le_trans hss hcur_le)
      · show linesText
            (st.lines ++ [(_, sliceStr text st.segment_start st.last_location)])
            = text.take st.last_location
        rw [linesText_append, hlt]
        exact take_append_slice text _ _ hss
      · show linesText (st.lines ++ [(_, sliceStr text st.segment_start cur.1)])
            = text.take cur.1
        rw [linesText_append, hlt]
        exact take_append_slice text _ _ (le_trans hss hcur_le)
      · exact hlt
    obtain ⟨c1, c2, c3⟩ := ih (breakStep measure text T st cur)
      (by rw [hll]; exact hrest_sort) hss' hlt'
    refine ⟨c1, c2, ?_⟩
    rcases c3 with h | ⟨p, hp, hpe⟩
    · exact Or.inr ⟨cur, List.mem_cons_self _ _, by rw [h, hll]⟩
    · exact Or.inr ⟨p, List.mem_cons_of_mem _ hp, hpe⟩

/-- Concrete measurement oracle for the C8 counterexample: a line of at
most one character measures 10 units wide, a longer line 20. -/
def cexMeasure : List Char → TextExtents :=
  fun l => ⟨0, 0, if l.length ≤ 1 then 10 else 20, 0, 0, 0⟩

/-- Concrete two-character text for the C8 counterexample. -/
def cexText : List Char := ['a', 'b']

/-- Breakpoints for `cexText`: an optional break after the first
character and the mandatory end-of-text break. -/
def cexBreaks : List (Nat × BreakOpportunity) :=
  [(1, .Allowed), (2, .Mandatory)]

/-- C8 counterexample.  With a target width of 15, text "ab" (each
character 10 wide) and an optional break inside the segment, the line
committed at the mandatory end-of-text break measures 20 > 15 even
though the shorter in-width alternative "a" (ending at the optional
break at position 1, strictly inside the segment) existed: `break_text`
commits the proposed line as-is at a mandatory break, so claim (1) as
stated is false. -/
theorem claim_C8_counterexample :
    break_text cexMeasure cexText 15 cexBreaks
      = [(⟨0, 0, 20, 0, 0, 0⟩, ['a', 'b'])] ∧
    (15 : ℚ) < (cexMeasure ['a', 'b']).width ∧
    ['a', 'b'] = sliceStr cexText 0 2 ∧
    (1, BreakOpportunity.Allowed) ∈ cexBreaks ∧
    (0 : Nat) < 1 ∧ (1 : Nat) < 2 ∧
    (cexMeasure (sliceStr cexText 0 1)).width ≤ 15 ∧
    posLe 0 cexBreaks ∧
    cexBreaks = [(1, BreakOpportunity.Allowed)]
        ++ [(cexText.length, BreakOpportunity.Mandatory)] := by
  decide

/-- C8, amended.  (1) Every emitted line either measures within the
target width, or is a slice of the input that *ends at a mandatory
break* (mandatory breaks commit the pending segment as-is, even when a
shorter in-width candidate exists — the exception the counterexample
forces) or contains no break opportunity strictly inside it (no shorter
alternative line exists for that segment).  (2) When the breakpoint
list ends with the mandatory end-of-text break that the Unicode
algorithm guarantees (rule LB3), the concatenation of all emitted line
texts equals the input text exactly; an empty input has no break
opportunities and yields no lines, whose concatenation is again the
input. -/
theorem claim_C8_break_text (measure : List Char → TextExtents)
    (text : List Char) (T : ℚ) (bs : List (Nat × BreakOpportunity))
    (hsort : posLe 0 bs) :
    (∀ el ∈ break_text measure text T bs,
      (measure el.2).width ≤ T ∨
      ∃ a b, a ≤ b ∧ el.2 = sliceStr text a b ∧
        ((b, BreakOpportunity.Mandatory) ∈ bs ∨ NoBreakInside bs a b)) ∧
    (∀ bs0, bs = bs0 ++ [(text.length, BreakOpportunity.Mandatory)] →
      linesText (break_text measure text T bs) = text) ∧
    (text = [] → bs = [] → linesText (break_text measure text T bs) = text) := by
  refine ⟨?_, ?_, ?_⟩
  · have hinv := break_inv measure text T bs bs ⟨0, 0, zeroExtents, []⟩
      hsort (fun p hp => hp) (fun p hp => Or.inl hp)
      ⟨le_refl 0, Or.inl rfl, fun el hel => absurd hel (List.not_mem_nil el)⟩
    exact fun el hel => hinv.2.2 el hel
  · intro bs0 heq
    subst heq
    show linesText ((bs0 ++ [(text.length, BreakOpportunity.Mandatory)]).foldl
        (breakStep measure text T) ⟨0, 0, zeroExtents, []⟩).lines = text
    rw [List.foldl_append, List.foldl_cons, List.foldl_nil]
    obtain ⟨hmlt, hmss, hmll⟩ := break_concat measure text T bs0
      ⟨0, 0, zeroExtents, []⟩ (posLe_append_left bs0 _ 0 hsort)
      (le_refl 0) (by simp [linesText])
    set mid := bs0.foldl (breakStep measure text T) ⟨0, 0, zeroExtents, []⟩ with hmid
    have hllb : mid.last_location ≤ text.length := by
      rcases hmll with h | ⟨p, hp, hpe⟩
      · rw [h]
        exact Nat.zero_le _
      · rw [hpe]
        exact posLe_last_bound bs0 0 (text.length, BreakOpportunity.Mandatory) hsort p hp
    rw [breakStep]
    rw [if_pos rfl]
    show linesText (mid.lines ++ [(_, sliceStr text mid.segment_start text.length)])
        = text
    rw [linesText_append, hmlt,
      take_append_slice text _ _ (le_trans hmss hllb), List.take_length]
  · intro htext hbs
    subst htext
    subst hbs
    rfl

theorem claim_C8_witness :
    posLe 0 cexBreaks ∧
    ((∀ el ∈ break_text cexMeasure cexText 15 cexBreaks,
      (cexMeasure el.2).width ≤ 15 ∨
      ∃ a b, a ≤ b ∧ el.2 = sliceStr cexText a b ∧
        ((b, BreakOpportunity.Mandatory) ∈ cexBreaks ∨ NoBreakInside cexBreaks a b)) ∧
    (∀ bs0, cexBreaks = bs0 ++ [(cexText.length, BreakOpportunity.Mandatory)] →
      linesText (break_text cexMeasure cexText 15 cexBreaks) = cexText) ∧
    (cexText = [] → cexBreaks = [] →
      linesText (break_text cexMeasure cexText 15 cexBreaks) = cexText)) :=
  ⟨by decide, claim_C8_break_text cexMeasure cexText 15 cexBreaks (by decide)⟩

/-! ### Image compositor: decoding, extents and rendering (src/image.rs)

The cairo surface library and the jpeg decoder are external; their call
results are oracle fields of `RenderEnv`.  Error messages (Rust
`String`s built with `format!`) are modelled by the structured
`RenderErr` type, one constructor per distinct failure site. -/

/-- `jpeg_decoder::PixelFormat` (the variants the code matches on). -/
inductive PixelFormat : Type where
  | L8 : PixelFormat
  | RGB24 : PixelFormat
  | CMYK32 : PixelFormat
deriving DecidableEq

/-- `cairo::Format` (the variants the code uses). -/
inductive CairoFormat : Type where
  | A8 : CairoFormat
  | Rgb24 : CairoFormat
  | ARgb32 : CairoFormat
deriving DecidableEq

/-- Structured failure reasons, one per `Err(...)` site in src/image.rs. -/
inductive RenderErr : Type where
  | UnsupportedPixelFormat (pf : PixelFormat) : RenderErr
  | UnsupportedCairoFormat (cf : CairoFormat) : RenderErr
  | StrideFailed (cf : CairoFormat) (width : Nat) : RenderErr
  | ConvertMismatch (pf : PixelFormat) (cf : CairoFormat) : RenderErr
  | NoJpegMetadata : RenderErr
  | CmykUnsupported : RenderErr
  | SurfaceDataFailed : RenderErr
deriving DecidableEq

/-- A cairo `ImageSurface`, reduced to the dimensions the code reads. -/
structure Surface : Type where
  width : Int
  height : Int
deriving DecidableEq

/-- `jpeg_decoder::ImageInfo` (the fields the code reads). -/
structure JpegInfo : Type where
  width : Nat
  height : Nat
  pixel_format : PixelFormat
deriving DecidableEq

instance : Monad PanicOr where
  pure := .ok
  bind := fun x f =>
    match x with
    | .panicked => .panicked
    | .ok a => f a

/-- Rust slice indexing `old_data[i]`: panics out of bounds. -/
def listIdx (l : List Nat) (i : Nat) : PanicOr Nat :=
  match l[i]? with
  | some v => .ok v
  | none => .panicked

/-- `Vec::resize_with(n, Default::default)`: pad with zeros or truncate
to length `n`. -/
def resizeWithZeros (l : List Nat) (n : Nat) : List Nat :=
  if l.length ≤ n then l ++ List.replicate (n - l.length) 0 else l.take n

/-- `i32::from_be_bytes([0, b1, b2, b3])` followed by `.to_ne_bytes()`
on a little-endian target (src/image.rs:70-78). -/
def pixelBytes (b1 b2 b3 : Nat) : List Nat :=
  let v := (b1 % 256) * 65536 + (b2 % 256) * 256 + (b3 % 256)
  [v % 256, v / 256 % 256, v / 65536 % 256, v / 16777216 % 256]

/-- The row/column conversion loop of `jpeg_to_cairo`
(src/image.rs:62-80) for the `(RGB24, Rgb24)` pairing. -/
def convertPixels (old_data : List Nat)
    (old_stride new_stride old_pixel_size width height : Nat) :
    PanicOr (List Nat) :=
  (List.range height).foldlM
    (fun new_data row => do
      let new_data := resizeWithZeros new_data (row * new_stride)
      (List.range width).foldlM
        (fun nd col => do
          let old_index := row * old_stride + col * old_pixel_size
          let b1 ← listIdx old_data old_index
          let b2 ← listIdx old_data (old_index + 1)
          let b3 ← listIdx old_data (old_index + 2)
          pure (nd ++ pixelBytes b1 b2 b3))
        new_data)
    []

/-- `jpeg_to_cairo` (src/image.rs:22-89).  `strideRes` is the outcome of
cairo's `Format::stride_for_width`.  Supported pairings: only
`(RGB24, Rgb24)`; an unsupported JPEG or cairo pixel format, a stride
failure and a pairing mismatch are structured errors. -/
def jpeg_to_cairo (strideRes : Except Unit Nat) (old_data : List Nat)
    (width height : Nat) (old_format : PixelFormat) (new_format : CairoFormat) :
    PanicOr (Except RenderErr (Nat × List Nat)) :=
  match (match old_format with
         | .RGB24 => Except.ok 3
         | .L8 => Except.ok 1
         | other => Except.error (RenderErr.UnsupportedPixelFormat other)) with
  | .error e => .ok (.error e)
  | .ok old_pixel_size =>
    match (match new_format with
           | .Rgb24 => Except.ok 4
           | other => Except.error (RenderErr.UnsupportedCairoFormat other)) with
    | .error e => .ok (.error e)
    | .ok _new_pixel_size =>
      let old_stride := old_pixel_size * width
      match strideRes with
      | .error _ => .ok (.error (.StrideFailed new_format width))
      | .ok new_stride =>
        match old_format, new_format with
        | .RGB24, .Rgb24 =>
          match convertPixels old_data old_stride new_stride old_pixel_size
              width height with
          | .panicked => .panicked
          | .ok new_data => .ok (.ok (new_stride, new_data))
        | o, n => .ok (.error (.ConvertMismatch o n))

/-- The external call results `render` / `create_image_surface` depend
on: the PNG decode attempt, the JPEG decode attempt (pixels plus
optional metadata), the stride computation, the `create_for_data`
result, the two measurement contexts (title and alt-text font
settings), the `unicode_linebreak` oracle, whether
`ImageSurface::create` succeeds (its failure is `.expect`ed), and the
`write_to_png` outcome (`some` composed bytes, or `none` for a failure,
which is `.expect`ed). -/
structure RenderEnv : Type where
  pngRes : Option Surface
  jpegRes : Option (List Nat × Option JpegInfo)
  strideRes : Except Unit Nat
  surfaceDataRes : Except RenderErr Surface
  measureHeader : List Char → TextExtents
  measureAlt : List Char → TextExtents
  altBreaks : List Char → List (Nat × BreakOpportunity)
  surfaceCreateOk : Bool
  writePngRes : Option (List Nat)

/-- `create_image_surface` (src/image.rs:91-142): try PNG; on failure
try JPEG; missing JPEG metadata and a CMYK32 pixel format are
structured errors; otherwise convert via `jpeg_to_cairo` and build the
surface from the converted data.  If *both* decodes fail the function
hits `panic!("Could not decode the image as either a PNG or a JPEG")`. -/
def create_image_surface (env : RenderEnv) : PanicOr (Except RenderErr Surface) :=
  match env.pngRes with
  | some s => .ok (.ok s)
  | none =>
    match env.jpegRes with
    | some (pixels, info?) =>
      match info? with
      | none => .ok (.error .NoJpegMetadata)
      | some info =>
        match (match info.pixel_format with
               | .L8 => Except.ok CairoFormat.A8
               | .RGB24 => Except.ok CairoFormat.Rgb24
               | .CMYK32 => Except.error RenderErr.CmykUnsupported) with
        | .error e => .ok (.error e)
        | .ok cairo_format =>
          match jpeg_to_cairo env.strideRes pixels info.width info.height
              info.pixel_format cairo_format with
          | .panicked => .panicked
          | .ok (.error e) => .ok (.error e)
          | .ok (.ok _) => .ok env.surfaceDataRes
    | none => .panicked

/-- `ALT_WIDTH_TARGET` (src/image.rs:14). -/
def ALT_WIDTH_TARGET : ℚ := 500

/-- `ALT_LEADING` (src/image.rs:16). -/
def ALT_LEADING : ℚ := 5

/-- `text_block_extents` (src/image.rs:246-262): the first element of
the iterator is taken with `.next().unwrap()` — an empty iterator
panics — and the remaining extents are folded in. -/
def text_block_extents (extents : List TextExtents) (line_spacing : ℚ) :
    PanicOr TextExtents :=
  match extents with
  | [] => .panicked
  | first :: rest =>
    .ok (rest.foldl
      (fun acc nw =>
        { acc with
          width := max acc.width nw.width,
          height := acc.height + (line_spacing + nw.height),
          x_advance := max acc.x_advance nw.x_advance,
          y_advance := acc.y_advance + (line_spacing + nw.y_advance) })
      first)

/-- `render` (src/image.rs:264-418): decode the source image, measure
the title, break the alt text, compute the alt-block extents, create
the output surface (`.expect`), draw (layout arithmetic and drawing
only mutate the surface and are omitted — the composed bytes are the
`write_to_png` outcome, whose failure is `.expect`ed). -/
def render (env : RenderEnv) (comic : Comic) : PanicOr (Except RenderErr (List Nat)) :=
  match create_image_surface env with
  | .panicked => .panicked
  | .ok (.error e) => .ok (.error e)
  | .ok (.ok _comic_surface) =>
    let _header_size := env.measureHeader comic.safe_title
    let alt_lines :=
      break_text env.measureAlt comic.alt ALT_WIDTH_TARGET (env.altBreaks comic.alt)
    match text_block_extents (alt_lines.map (fun el => el.1)) ALT_LEADING with
    | .panicked => .panicked
    | .ok _alt_extents =>
      if env.surfaceCreateOk then
        match env.writePngRes with
        | some buffer => .ok (.ok buffer)
        | none => .panicked
      else .panicked

/-- Environment in which both the PNG and the JPEG decode fail. -/
def noPngEnv : RenderEnv :=
  ⟨none, none, .error (), .error .SurfaceDataFailed,
   fun _ => zeroExtents, fun _ => zeroExtents, fun _ => [], true, some [9]⟩

/-- Environment in which the PNG decode fails and the JPEG decodes with
a CMYK32 pixel format. -/
def cmykEnv : RenderEnv :=
  ⟨none, some ([5], some ⟨2, 2, .CMYK32⟩), .error (), .error .SurfaceDataFailed,
   fun _ => zeroExtents, fun _ => zeroExtents, fun _ => [], true, some [9]⟩

/-- Environment in which the PNG decode fails and the JPEG decodes with
an L8 (grayscale) pixel format, an unsupported pairing. -/
def l8Env : RenderEnv :=
  ⟨none, some ([5], some ⟨2, 2, .L8⟩), .error (), .error .SurfaceDataFailed,
   fun _ => zeroExtents, fun _ => zeroExtents, fun _ => [], true, some [9]⟩

/-- Environment in which everything on the PNG-decode success path
succeeds, with one break opportunity so the alt text emits one line. -/
def goodEnv : RenderEnv :=
  ⟨some ⟨3, 4⟩, none, .error (), .error .SurfaceDataFailed,
   fun _ => zeroExtents, fun _ => zeroExtents,
   fun _ => [(1, BreakOpportunity.Mandatory)], true, some [9]⟩

/-- Environment whose line-break oracle yields no opportunities, so the
alt text emits zero lines. -/
def emptyAltEnv : RenderEnv :=
  ⟨some ⟨3, 4⟩, none, .error (), .error .SurfaceDataFailed,
   fun _ => zeroExtents, fun _ => zeroExtents, fun _ => [], true, some [9]⟩

/-- C7 counterexample.  The claim says an input that decodes under no
supported raster encoding yields an `Err`; but `create_image_surface`
ends in `panic!("Could not decode the image as either a PNG or a
JPEG")`, so `render` panics — a panic is neither `Ok` nor `Err`. -/
theorem claim_C7_counterexample :
    render noPngEnv sampleComic = .panicked ∧
    (∀ e : RenderErr, PanicOr.panicked ≠ PanicOr.ok (Except.error e : Except RenderErr (List Nat))) ∧
    (∀ b : List Nat, PanicOr.panicked ≠ PanicOr.ok (Except.ok b : Except RenderErr (List Nat))) := by
  refine ⟨rfl, ?_, ?_⟩ <;> (intro x h; exact PanicOr.noConfusion h)

/-- C7, amended.  `render` yields a structured `Err` — without
panicking — for the decode-level failures that reach an `Err(...)`
site: missing JPEG metadata, a CMYK32 source, and the unsupported
L8→A8 pixel-format pairing; and it returns `Ok` on the success path.
But an input that decodes under *neither* supported encoding panics
(`panic!`), and an output-encoding (`write_to_png`) failure panics
(`.expect`), rather than returning `Err`. -/
theorem claim_C7_render_errors :
    (∀ env comic, env.pngRes = none → env.jpegRes = none →
      render env comic = .panicked) ∧
    (∀ env comic pixels, env.pngRes = none → env.jpegRes = some (pixels, none) →
      render env comic = .ok (.error .NoJpegMetadata)) ∧
    (∀ env comic pixels info, env.pngRes = none →
      env.jpegRes = some (pixels, some info) → info.pixel_format = .CMYK32 →
      render env comic = .ok (.error .CmykUnsupported)) ∧
    (∀ env comic pixels info, env.pngRes = none →
      env.jpegRes = some (pixels, some info) → info.pixel_format = .L8 →
      render env comic = .ok (.error (.UnsupportedCairoFormat .A8))) ∧
    (∀ env comic s, env.pngRes = some s → env.surfaceCreateOk = true →
      env.writePngRes = none →
      break_text env.measureAlt comic.alt ALT_WIDTH_TARGET (env.altBreaks comic.alt)
        ≠ [] →
      render env comic = .panicked) ∧
    (∀ env comic s buf, env.pngRes = some s → env.surfaceCreateOk = true →
      env.writePngRes = some buf →
      break_text env.measureAlt comic.alt ALT_WIDTH_TARGET (env.altBreaks comic.alt)
        ≠ [] →
      render env comic = .ok (.ok buf)) := by
  refine ⟨?_, ?_, ?_, ?_, ?_, ?_⟩
  · intro env comic h1 h2
    simp only [render, create_image_surface, h1, h2]
  · intro env comic pixels h1 h2
    simp only [render, create_image_surface, h1, h2]
  · intro env comic pixels info h1 h2 h3
    simp only [render, create_image_surface, h1, h2, h3]
  · intro env comic pixels info h1 h2 h3
    simp only [render, create_image_surface, jpeg_to_cairo, h1, h2, h3]
  · intro env comic s h1 hso hw hlines
    have hc : create_image_surface env = .ok (.ok s) := by
      simp only [create_image_surface, h1]
    simp only [render, hc]
    cases halt : break_text env.measureAlt comic.alt ALT_WIDTH_TARGET
        (env.altBreaks comic.alt) with
    | nil => exact absurd halt hlines
    | cons a l =>
      simp only [halt, List.map_cons, text_block_extents, hso, hw, if_true]
  · intro env comic s buf h1 hso hw hlines
    have hc : create_image_surface env = .ok (.ok s) := by
      simp only [create_image_surface, h1]
    simp only [render, hc]
    cases halt : break_text env.measureAlt comic.alt ALT_WIDTH_TARGET
        (env.altBreaks comic.alt) with
    | nil => exact absurd halt hlines
    | cons a l =>
      simp only [halt, List.map_cons, text_block_extents, hso, hw, if_true]

theorem claim_C7_witness :
    render noPngEnv sampleComic = .panicked ∧
    render cmykEnv sampleComic = .ok (.error .CmykUnsupported) ∧
    render l8Env sampleComic = .ok (.error (.UnsupportedCairoFormat .A8)) ∧
    render goodEnv sampleComic = .ok (.ok [9]) :=
  ⟨claim_C7_render_errors.1 noPngEnv sampleComic rfl rfl,
   claim_C7_render_errors.2.2.1 cmykEnv sampleComic [5] ⟨2, 2, .CMYK32⟩ rfl rfl rfl,
   claim_C7_render_errors.2.2.2.1 l8Env sampleComic [5] ⟨2, 2, .L8⟩ rfl rfl rfl,
   claim_C7_render_errors.2.2.2.2.2 goodEnv sampleComic ⟨3, 4⟩ [9] rfl rfl rfl
     (by decide)⟩

/-- C10.  `text_block_extents` unconditionally unwraps the first
element of its iterator, so it panics on an empty extents list; hence
`render` panics (instead of returning `Err`) for any comic whose alt
text yields zero emitted lines from `break_text` — in particular for an
empty alt text, for which the Unicode line-breaking algorithm yields no
break opportunities at all. -/
theorem claim_C10_empty_alt_panics :
    (∀ s : ℚ, text_block_extents [] s = .panicked) ∧
    (∀ env comic s, env.pngRes = some s →
      break_text env.measureAlt comic.alt ALT_WIDTH_TARGET (env.altBreaks comic.alt)
        = [] →
      render env comic = .panicked) ∧
    (∀ env comic s, env.pngRes = some s → comic.alt = [] →
      env.altBreaks [] = [] → render env comic = .panicked) := by
  have h2 : ∀ env comic s, (RenderEnv.pngRes env) = some s →
      break_text env.measureAlt comic.alt ALT_WIDTH_TARGET (env.altBreaks comic.alt)
        = [] →
      render env comic = .panicked := by
    intro env comic s h1 hlines
    have hc : create_image_surface env = .ok (.ok s) := by
      simp only [create_image_surface, h1]
    simp only [render, hc, hlines, List.map_nil, text_block_extents]
  refine ⟨fun s => rfl, h2, ?_⟩
  intro env comic s h1 ha hb
  refine h2 env comic s h1 ?_
  rw [ha, hb]
  rfl

theorem claim_C10_witness :
    text_block_extents [] 5 = .panicked ∧
    render emptyAltEnv sampleComic = .panicked :=
  ⟨claim_C10_empty_alt_panics.1 5,
   claim_C10_empty_alt_panics.2.1 emptyAltEnv sampleComic ⟨3, 4⟩ rfl rfl⟩
